import Mathlib

/-!
Verification of the ProjectQ provider backends (`qasm_simulator_projectq.py`
and `statevector_simulator_projectq.py`) against their natural-language
specification.  The Python sources are shallowly embedded below: the per-shot
interpreter loop of `QasmSimulatorProjectQ.run_circuit` becomes an explicit
state-passing function over a `SimState`, the external ProjectQ kernel is an
oracle (`Kernel`) supplying measurement outcomes and amplitude-vector reads,
Python's arbitrary-precision integers become `Nat` (bitwise operations are
exact, no wrap-around occurs in the source), and exceptions become
`Except String`.
-/

/-- Amplitude vector returned by the kernel's `cheat()` read.  The simulator
never inspects its contents, so the entries stay abstract rational pairs. -/
abbrev StateVec := List ℚ

/-- Rational value of the IEEE-754 double `np.pi` (3.141592653589793...),
used only in the `u2` decomposition.  (The model computes the angle
expressions exactly in `ℚ`; no claim depends on float rounding.) -/
def np_pi : ℚ := 884279719003555 / 281474976710656

/-- A conditional clause attached to an instruction.  In the qobj the mask and
value are hex strings; `run_circuit` immediately parses them with
`int(·, 16)`, so the model stores the parsed integers. -/
structure Conditional where
  mask : Nat
  val : Nat
deriving DecidableEq, Repr

/-- One qobj instruction: operation name, operand qubit indices into the
flattened quantum register, operand classical-bit indices, numeric
parameters, and an optional conditional clause. -/
structure Instruction where
  name : String
  qubits : List Nat := []
  clbits : List Nat := []
  params : List ℚ := []
  conditional : Option Conditional := none
deriving DecidableEq, Repr

/-- Circuit header: circuit name, qubit/clbit totals and register labels.
`qubit_labels` lists (register name, intra-register index) pairs;
`clbit_labels` lists (register name, register size) pairs, which is the
format `run_circuit` reads them in (lines 167-170). -/
structure CircuitHeader where
  name : String
  number_of_qubits : Nat
  number_of_clbits : Nat
  qubit_labels : List (String × Nat) := []
  clbit_labels : List (String × Nat) := []
deriving DecidableEq, Repr

/-- Per-item config (`QobjItem`): both the job-level `qobj.config` and the
optional per-circuit `circuit.config` carry optional `shots` and `seed`
attributes. -/
structure Cfg where
  shots : Option Nat := none
  seed : Option Nat := none
deriving DecidableEq, Repr

/-- One experiment of the qobj. -/
structure Circuit where
  header : CircuitHeader
  instructions : List Instruction := []
  config : Option Cfg := none
deriving DecidableEq, Repr

/-- The job structure.  `qobj.config` is always present on a qobj. -/
structure Qobj where
  qobj_id : String := ""
  config : Cfg := {}
  experiments : List Circuit := []
deriving DecidableEq, Repr

/-- Calls made to the external ProjectQ kernel, recorded in order.  They
mirror the collaborator interface: rotations, native gates, measurement,
flush, full-state read (`cheat`), and ground-state injection
(`set_wavefunction`). -/
inductive KernelOp where
  | rz (angle : ℚ) (qubit : Nat)
  | ry (angle : ℚ) (qubit : Nat)
  | rx (angle : ℚ) (qubit : Nat)
  | tGate (qubit : Nat)
  | hGate (qubit : Nat)
  | sGate (qubit : Nat)
  | cxGate (control target : Nat)
  | measureGate (qubit : Nat)
  | flush
  | readState
  | setWavefunction
deriving DecidableEq, Repr

/-- Oracle for the external simulation kernel: `measBit k` is the outcome of
the k-th measurement call of the circuit, `stateRead k` the amplitude vector
returned by the k-th `cheat()` call. -/
structure Kernel where
  measBit : Nat → Bool
  stateRead : Nat → StateVec

/-- Mutable state threaded through `run_circuit`: the packed classical
register (`self._classical_state`), the ordered trace of kernel calls, the
snapshot store, and the indices of the next measurement / state-read oracle
calls.  Trace, snapshots and the oracle counters persist across shots;
`classical_state` is reset to 0 at every shot start. -/
structure SimState where
  classical_state : Nat := 0
  trace : List KernelOp := []
  snapshots : List (String × List StateVec) := []
  measCount : Nat := 0
  readCount : Nat := 0
deriving Repr

/-- The lock-step right-shift loop of the conditional check
(lines 204-206: `while (mask & 0x1) == 0: mask >>= 1; value >>= 1`).
`fuel` bounds the number of iterations; since a nonzero mask strictly halves
at each step, calling with `fuel = mask` always suffices. -/
def shift_lockstep : Nat → Nat → Nat → Nat × Nat
  | 0, mask, value => (mask, value)
  | fuel + 1, mask, value =>
    if mask % 2 = 0 then shift_lockstep fuel (mask / 2) (value / 2) else (mask, value)

/-- The conditional screening of lines 200-208: with a zero mask no check is
performed (the instruction runs); otherwise `value = classical_state & mask`
and the mask are right-shifted in lock-step until the mask's least
significant bit is set, and the shifted value is compared with the expected
value. -/
def evaluate_conditional (state mask expected : Nat) : Bool :=
  if mask = 0 then true
  else decide ((shift_lockstep mask mask (state &&& mask)).2 = expected)

/-- The classical-state update of a measurement (lines 247-250):
`bit = 1 << clbit; state = (state & ~bit) | (measured << clbit)`.
Python's `x & ~y` on nonnegative bignums is exactly `Nat.ldiff`. -/
def measure_update (state clbit bit : Nat) : Nat :=
  Nat.ldiff state (1 <<< clbit) ||| (bit <<< clbit)

/-- Tail of `_get_register_specs` (lines 334-336): `itertools.groupby` walks
maximal runs of consecutive labels sharing a register name; for the run in
progress the name and the running maximum index are carried along, and on a
name change (or at the end) `max + 1` is emitted as the register size. -/
def get_register_specs_aux (cur_name : String) (cur_max : Nat) :
    List (String × Nat) → List (String × Nat)
  | [] => [(cur_name, cur_max + 1)]
  | (n, i) :: rest =>
    if n = cur_name then get_register_specs_aux cur_name (max cur_max i) rest
    else (cur_name, cur_max + 1) :: get_register_specs_aux n i rest

/-- `_get_register_specs(bit_labels)` (lines 317-336): group consecutive
pairs sharing a register name and yield `(name, max index + 1)` per group,
in first-appearance order. -/
def get_register_specs : List (String × Nat) → List (String × Nat)
  | [] => []
  | (n, i) :: rest => get_register_specs_aux n i rest

/-- The accumulation loop of lines 167-170: the starting bit offset of each
classical register is the running sum of the sizes of the registers declared
before it.  `cl_reg_index = offsetsFrom 0 cl_reg_nbits`. -/
def offsetsFrom (acc : Nat) : List Nat → List Nat
  | [] => []
  | s :: rest => acc :: offsetsFrom (acc + s) rest

/-- Python string slicing `s[start:stop]` with possibly negative bounds:
a negative index counts from the end and is clamped to the string. -/
def pySlice (s : List Char) (start stop : Int) : List Char :=
  let L : Int := s.length
  let norm : Int → Nat := fun i =>
    min ((if i < 0 then L + i else i).toNat) s.length
  (s.take (norm stop)).drop (norm start)

/-- Key rewriting of `_format_result` (lines 352-358): start from the last
`cl_reg_nbits[0]` characters (`key[-cl_reg_nbits[0]:]`), then for each later
register prepend `key[-(index+nbits):-index]` (`new_key.insert(0, ...)`). -/
def format_key (key : List Char) (cl_reg_index cl_reg_nbits : List Nat) :
    List (List Char) :=
  match cl_reg_nbits with
  | [] => []  -- Python raises IndexError on `cl_reg_nbits[0]` here
  | n0 :: _ =>
    (List.zip (cl_reg_index.drop 1) (cl_reg_nbits.drop 1)).foldl
      (fun acc p => pySlice key (-(p.1 + p.2 : Int)) (-(p.1 : Int)) :: acc)
      [pySlice key (-(n0 : Int)) (key.length : Int)]

/-- `_format_result(counts, cl_reg_index, cl_reg_nbits)` (lines 339-359):
each histogram key is sliced at register boundaries and re-joined with
single spaces; counts are carried over unchanged. -/
def format_result (counts : List (String × Nat)) (cl_reg_index cl_reg_nbits : List Nat) :
    List (String × Nat) :=
  counts.map fun kv =>
    (String.intercalate " "
      ((format_key kv.1.toList cl_reg_index cl_reg_nbits).map List.asString), kv.2)

/-- Snapshot-store insertion (lines 261-264): append the captured vector to
the label's list if the label is already present, otherwise add a fresh
entry (Python dict insertion keeps it at the end). -/
def snapAdd (store : List (String × List StateVec)) (label : String) (v : StateVec) :
    List (String × List StateVec) :=
  if (store.lookup label).isSome then
    store.map fun e => if e.1 = label then (e.1, e.2 ++ [v]) else e
  else store ++ [(label, [v])]

/-- `str(operation.params[0])` for the snapshot label (line 259); snapshot
labels in practice are integers, rendered in decimal. -/
def snapLabel (q : ℚ) : String :=
  if q.den = 1 then toString q.num else toString q.num ++ "/" ++ toString q.den

/-- `format(classical_state, 'b')`: binary rendering, most significant bit
first ("0" for zero). -/
def natToBinStr (n : Nat) : String :=
  (Nat.toDigits 2 n).asString

/-- Python `str.zfill`: left-pad with zeros to the classical-bit width. -/
def zfill (width : Nat) (s : String) : String :=
  ⟨List.replicate (width - s.length) '0' ++ s.toList⟩

/-- One step of the `collections.Counter` accumulation: bump the outcome's
entry when present, otherwise append a fresh entry. -/
def countStep (acc : List (String × Nat)) (o : String) : List (String × Nat) :=
  if (acc.lookup o).isSome then
    acc.map fun e => if e.1 = o then (e.1, e.2 + 1) else e
  else acc ++ [(o, 1)]

/-- `collections.Counter` over the outcome list: occurrence counts keyed in
first-occurrence order. -/
def countOccurrences (outcomes : List String) : List (String × Nat) :=
  outcomes.foldl countStep []

/-- The per-circuit seed logic of lines 172-175: the simulator is re-seeded
with `circuit.config.seed` only when the circuit has a config whose `seed`
attribute is present and truthy (a seed of 0 is falsy in Python and does not
override). -/
def circuitSimSeed (jobSeed : Nat) (c : Circuit) : Nat :=
  match c.config with
  | some cfg =>
    match cfg.seed with
    | some s => if s ≠ 0 then s else jobSeed
    | none => jobSeed
  | none => jobSeed

/-- Backend name of `QasmSimulatorProjectQ` (DEFAULT_CONFIGURATION). -/
def qasm_backend_name : String := "projectq_qasm_simulator"

/-- Backend name of `StatevectorSimulatorProjectQ` (DEFAULT_CONFIGURATION). -/
def statevector_backend_name : String := "projectq_statevector_simulator"

/-- Error message of the `reset` branch (lines 252-255). -/
def reset_error_msg : String :=
  "Reset operation not yet implemented for ProjectQ C++ backend"

/-- Error message of the fallback branch (lines 267-271). -/
def unrecognized_error_msg (backend opname : String) : String :=
  backend ++ " encountered unrecognized operation \"" ++ opname ++ "\""

/-- One iteration of the dispatch loop (lines 199-271): conditional
screening first, then the `if`/`elif` chain over the operation name.
Instruction operand accesses `qubits[0]`, `qubits[1]`, `clbits[0]`,
`params[i]` are modelled with default 0 (Python raises on out-of-range
operands; every theorem below supplies literal operand lists). -/
def execOp (backend : String) (kern : Kernel) (qureg : List Nat) (s : SimState)
    (op : Instruction) : Except String SimState :=
  if (match op.conditional with
      | some c => !(evaluate_conditional s.classical_state c.mask c.val)
      | none => false) then
    .ok s
  else if op.name = "U" ∨ op.name = "u3" then
    let q := qureg.getD (op.qubits.getD 0 0) 0
    .ok { s with trace := s.trace ++
      [.rz (op.params.getD 2 0) q, .ry (op.params.getD 0 0) q, .rz (op.params.getD 1 0) q] }
  else if op.name = "u1" then
    let q := qureg.getD (op.qubits.getD 0 0) 0
    .ok { s with trace := s.trace ++ [.rz (op.params.getD 0 0) q] }
  else if op.name = "u2" then
    let q := qureg.getD (op.qubits.getD 0 0) 0
    .ok { s with trace := s.trace ++
      [.rz (op.params.getD 1 0 - np_pi / 2) q, .rx (np_pi / 2) q,
       .rz (op.params.getD 0 0 + np_pi / 2) q] }
  else if op.name = "t" then
    .ok { s with trace := s.trace ++ [.tGate (qureg.getD (op.qubits.getD 0 0) 0)] }
  else if op.name = "h" then
    .ok { s with trace := s.trace ++ [.hGate (qureg.getD (op.qubits.getD 0 0) 0)] }
  else if op.name = "s" then
    .ok { s with trace := s.trace ++ [.sGate (qureg.getD (op.qubits.getD 0 0) 0)] }
  else if op.name = "CX" ∨ op.name = "cx" then
    .ok { s with trace := s.trace ++
      [.cxGate (qureg.getD (op.qubits.getD 0 0) 0) (qureg.getD (op.qubits.getD 1 0) 0)] }
  else if op.name = "id" ∨ op.name = "u0" then
    .ok s
  else if op.name = "measure" then
    let q := qureg.getD (op.qubits.getD 0 0) 0
    let clbit := op.clbits.getD 0 0
    let bit : Nat := if kern.measBit s.measCount then 1 else 0
    .ok { s with trace := s.trace ++ [.measureGate q],
                 measCount := s.measCount + 1,
                 classical_state := measure_update s.classical_state clbit bit }
  else if op.name = "reset" then
    .error reset_error_msg
  else if op.name = "snapshot" then
    let location := snapLabel (op.params.getD 0 0)
    let v := kern.stateRead s.readCount
    .ok { s with trace := s.trace ++ [.flush, .readState],
                 readCount := s.readCount + 1,
                 snapshots := snapAdd s.snapshots location v }
  else if op.name = "barrier" then
    .ok s
  else
    .error (unrecognized_error_msg backend op.name)

/-- Run all instructions of one shot in order (the inner `for operation in
circuit.instructions` loop); the first raised error aborts the run. -/
def execOps (backend : String) (kern : Kernel) (qureg : List Nat)
    (s : SimState) (ops : List Instruction) : Except String SimState :=
  ops.foldlM (execOp backend kern qureg) s

/-- One shot of the loop at lines 187-282: reset the classical state, on
shots after the first flush and re-inject the cached ground state, run every
instruction, terminally measure every declared qubit (kernel hygiene only -
the classical state is untouched), flush, and render the outcome bitstring. -/
def runShot (backend : String) (kern : Kernel) (qureg : List Nat)
    (nQubits nClbits : Nat) (ops : List Instruction) (i : Nat) (s : SimState) :
    Except String (SimState × String) :=
  let s0 := { s with classical_state := 0 }
  let s1 := if i > 0 then { s0 with trace := s0.trace ++ [.flush, .setWavefunction] } else s0
  match execOps backend kern qureg s1 ops with
  | .error e => .error e
  | .ok s2 =>
    let s3 := (List.range nQubits).foldl
      (fun st ind => { st with trace := st.trace ++ [.measureGate (qureg.getD ind 0)],
                               measCount := st.measCount + 1 })
      s2
    let s4 := { s3 with trace := s3.trace ++ [.flush] }
    .ok (s4, zfill nClbits (natToBinStr s4.classical_state))

/-- The shot loop `for i in range(self._shots)`, threading the simulator
state and accumulating outcome strings. -/
def runShotsAux (backend : String) (kern : Kernel) (qureg : List Nat)
    (nQubits nClbits : Nat) (ops : List Instruction) :
    Nat → Nat → SimState → List String → Except String (SimState × List String)
  | _, 0, s, outs => .ok (s, outs)
  | i, r + 1, s, outs =>
    match runShot backend kern qureg nQubits nClbits ops i s with
    | .error e => .error e
    | .ok (s', out) => runShotsAux backend kern qureg nQubits nClbits ops (i + 1) r s' (outs ++ [out])

/-- One circuit's result record (lines 293-299 plus the data dict of
lines 286-291).  An empty `snapshots` list models the absent
`data['snapshots']` key; `statevector` is only ever set by the statevector
variant's post-processing. -/
structure CircuitResult where
  name : String
  seed : Nat
  shots : Nat
  counts : List (String × Nat)
  snapshots : List (String × List StateVec)
  classical_state : Option Nat
  statevector : Option StateVec := none
deriving DecidableEq, Repr

/-- The flattened quantum register of lines 178-192: one register per entry
of `_get_register_specs(qubit_labels)`, allocated contiguously, flattened in
declaration order; qubit handles are modelled by their allocation index. -/
def circuitQureg (c : Circuit) : List Nat :=
  List.range ((get_register_specs c.header.qubit_labels).foldl (fun a r => a + r.2) 0)

/-- `QasmSimulatorProjectQ.run_circuit` (lines 137-299).  `kernels s` is the
external kernel as seeded with `s`; the effective seed follows the
per-circuit override rule of lines 172-175.  The reported `seed` field is
`self._seed`, the job-level seed, even when the circuit overrode the
simulator's seed. -/
def run_circuit (backend : String) (kernels : Nat → Kernel) (jobSeed jobShots : Nat)
    (c : Circuit) : Except String CircuitResult :=
  let nQ := c.header.number_of_qubits
  let nC := c.header.number_of_clbits
  let cl_reg_nbits := c.header.clbit_labels.map (·.2)
  let cl_reg_index := offsetsFrom 0 cl_reg_nbits
  let kern := kernels (circuitSimSeed jobSeed c)
  match runShotsAux backend kern (circuitQureg c) nQ nC c.instructions 0 jobShots {} [] with
  | .error e => .error e
  | .ok (sFinal, outcomes) =>
    let counts := countOccurrences outcomes
    .ok { name := c.header.name,
          seed := jobSeed,
          shots := jobShots,
          counts := format_result counts cl_reg_index cl_reg_nbits,
          snapshots := sFinal.snapshots,
          classical_state := if jobShots = 1 then some sFinal.classical_state else none }

/-- `QasmSimulatorProjectQ._run_job` (lines 98-135), parameterized by the
(possibly overridden) `self._validate`: validate, resolve the job seed
(`getattr(qobj.config, 'seed', random.getrandbits(32))`, modelled by the
`randomSeed` draw) and shot count (`qobj.config.shots`, a required
attribute; theorems always supply it), then run every experiment in order.
Timing, job id, and the result-object conversion carry no information the
claims touch and are omitted. -/
def run_job_core (backend : String) (validate : Qobj → Except String Qobj)
    (kernels : Nat → Kernel) (randomSeed : Nat) (q : Qobj) :
    Except String (List CircuitResult) :=
  match validate q with
  | .error e => .error e
  | .ok q' =>
    let seed := q'.config.seed.getD randomSeed
    let shots := q'.config.shots.getD 0
    q'.experiments.mapM (run_circuit backend kernels seed shots)

/-- The base simulator's `_validate` (lines 301-314) only emits warnings;
it never fails and never mutates the qobj. -/
def qasm_validate (q : Qobj) : Except String Qobj := .ok q

/-- `QasmSimulatorProjectQ._run_job` proper. -/
def qasm_run_job (kernels : Nat → Kernel) (randomSeed : Nat) (q : Qobj) :
    Except String (List CircuitResult) :=
  run_job_core qasm_backend_name qasm_validate kernels randomSeed q

/-- `StatevectorSimulatorProjectQ._set_shots_to_1` (lines 117-136): create a
config holding `shots=1` when the item has none, log a diagnostic when the
existing `shots` attribute differs from 1, then force `shots` to 1.  Returns
the updated config and whether the diagnostic was emitted. -/
def set_shots_to_1 (config : Option Cfg) : Cfg × Bool :=
  let cfg : Cfg := match config with
    | none => { shots := some 1 }
    | some c => c
  ({ cfg with shots := some 1 }, decide (cfg.shots ≠ some 1))

/-- Internal key for the final state snapshot (line 71). -/
def final_state_key : Nat := 32767

/-- The appended instruction of lines 74-75:
`QobjInstruction(name='snapshot', params=[final_state_key])`. -/
def final_snapshot_instr : Instruction :=
  { name := "snapshot", params := [(32767 : ℚ)] }

/-- The per-circuit part of `StatevectorSimulatorProjectQ._validate`
(lines 109-115): set the circuit's shots to 1, then reject the circuit if
any instruction is a measure or reset.  Returns the updated circuits and
their diagnostic flags. -/
def sv_validate_circuits : List Circuit → Except String (List Circuit × List Bool)
  | [] => .ok ([], [])
  | c :: rest =>
    let p := set_shots_to_1 c.config
    let c' := { c with config := some p.1 }
    if c.instructions.any (fun op => op.name == "measure" || op.name == "reset") then
      .error ("In circuit " ++ c.header.name ++
        ": statevector simulator does not support measure or reset.")
    else
      match sv_validate_circuits rest with
      | .error e => .error e
      | .ok (cs, ws) => .ok (c' :: cs, p.2 :: ws)

/-- `StatevectorSimulatorProjectQ._validate` (lines 95-115): force the job
shot count to 1, then process each circuit in order.  On success, returns
the updated qobj together with the diagnostic flags (job first, then one per
circuit). -/
def sv_validate (q : Qobj) : Except String (Qobj × List Bool) :=
  let p := set_shots_to_1 (some q.config)
  match sv_validate_circuits q.experiments with
  | .error e => .error e
  | .ok (cs, ws) => .ok ({ q with config := p.1, experiments := cs }, p.2 :: ws)

/-- Append the sentinel final-state snapshot to one circuit (lines 73-75). -/
def extendCircuit (c : Circuit) : Circuit :=
  { c with instructions := c.instructions ++ [final_snapshot_instr] }

/-- Post-execution rewrite of one result (lines 78-89): read
`res.data['snapshots']` (a KeyError when the store is absent, i.e. empty in
the model), pop the sentinel-labelled entry (`pop` returns `None` when the
key is missing, and the following subscripts then raise), publish its first
captured vector as `data['statevector']`, and drop the snapshot store when
nothing else remains (automatic in the empty-list model). -/
def sv_postprocess (r : CircuitResult) : Except String CircuitResult :=
  if r.snapshots = [] then .error "KeyError: snapshots"
  else
    match r.snapshots.lookup (toString final_state_key) with
    | none => .error "TypeError: NoneType is not subscriptable"
    | some vs =>
      match vs with
      | [] => .error "IndexError: list index out of range"
      | v :: _ =>
        .ok { r with
          snapshots := r.snapshots.eraseP (fun e => e.1 == toString final_state_key),
          statevector := some v }

/-- `StatevectorSimulatorProjectQ._run_job` (lines 51-91): validate, append
the sentinel snapshot to every circuit, run the base job (which re-invokes
the overridden `_validate` through dynamic dispatch), then post-process
every result. -/
def sv_run_job (kernels : Nat → Kernel) (randomSeed : Nat) (q : Qobj) :
    Except String (List CircuitResult) :=
  match sv_validate q with
  | .error e => .error e
  | .ok (q1, _) =>
    let q2 := { q1 with experiments := q1.experiments.map extendCircuit }
    match run_job_core statevector_backend_name (fun qq => (sv_validate qq).map (·.1))
        kernels randomSeed q2 with
    | .error e => .error e
    | .ok results => results.mapM sv_postprocess

/-- Total number of recorded shots in a result's histogram. -/
def countsTotal (r : CircuitResult) : Nat :=
  (r.counts.map (·.2)).sum

/-! Spec-side definitions, for the refinement comparisons.  Each follows the
words of the specification, to be compared against the definitions above
that were translated from the source. -/

/-- Follows the spec words for `evaluate_conditional` (section 4.2 and claim
C2): "right-shifts both the current state and the mask in lock-step until
the mask's least-significant bit is set, then compares the shifted state
against `expected`" — with the *unmasked* state, as literally written. -/
def evaluate_conditional_spec_unmasked (state mask expected : Nat) : Bool :=
  if mask = 0 then true
  else decide ((shift_lockstep mask mask state).2 = expected)

/-- Spec-side maximum of a register run's local indices (max of a nonempty
list, seeded with its head). -/
def runMax : List Nat → Nat
  | [] => 0
  | i :: rest => rest.foldl max i

/-- Spec-side key rewriting (section 4.5 and claim C7): slice the key into
per-register substrings — register with offset `o` and size `s` owns the
characters `[len - o - s, len - o)` of the MSB-first key — and list them
from the last-declared register to the first. -/
def format_key_spec (key : List Char) (regs : List (Nat × Nat)) : List (List Char) :=
  (regs.map fun r => (key.take (key.length - r.1)).drop (key.length - r.1 - r.2)).reverse

/-- Spec-side result formatting: rewrite every key, keep every count. -/
def format_result_spec (counts : List (String × Nat)) (regs : List (Nat × Nat)) :
    List (String × Nat) :=
  counts.map fun kv =>
    (String.intercalate " " ((format_key_spec kv.1.toList regs).map List.asString), kv.2)

/-- Characterization of the statevector variant's shot-count diagnostic: a
diagnostic is emitted for an item exactly when the item already had a config
whose `shots` attribute differed from 1 (a freshly created config is
born with `shots=1` and is silent). -/
def overrideWarn (config : Option Cfg) : Bool :=
  match config with
  | none => false
  | some cfg => decide (cfg.shots ≠ some 1)

/-! Concrete inputs used by the counterexamples and witnesses. -/

/-- A deterministic kernel family: every measurement returns 0 and every
state read returns the empty vector. -/
def testKernels : Nat → Kernel := fun _ => ⟨fun _ => false, fun _ => []⟩

/-- One-qubit, one-clbit circuit whose only instruction is a `reset` guarded
by a conditional clause (`mask = 0x1`, expected value `0x1`) that evaluates
false on the all-zero classical state. -/
def conditionalResetCircuit : Circuit :=
  { header := { name := "c0", number_of_qubits := 1, number_of_clbits := 1,
                qubit_labels := [("q", 0)], clbit_labels := [("c", 1)] },
    instructions := [{ name := "reset", qubits := [0],
                       conditional := some { mask := 1, val := 1 } }] }

/-- Like `conditionalResetCircuit` but with an unconditional reset. -/
def unconditionalResetCircuit : Circuit :=
  { header := { name := "c0", number_of_qubits := 1, number_of_clbits := 1,
                qubit_labels := [("q", 0)], clbit_labels := [("c", 1)] },
    instructions := [{ name := "reset", qubits := [0] }] }

/-- An empty one-qubit circuit carrying a per-circuit config override with
`shots = 5` and `seed = 7`. -/
def overrideShotsCircuit : Circuit :=
  { header := { name := "c1", number_of_qubits := 1, number_of_clbits := 1,
                qubit_labels := [("q", 0)], clbit_labels := [("c", 1)] },
    instructions := [],
    config := some { shots := some 5, seed := some 7 } }

/-! Helper lemmas. -/

/-- The lock-step shift loop, with enough fuel, shifts both components by
the index of the mask's least significant set bit. -/
theorem shift_lockstep_eq (fuel mask value k : Nat) (hfuel : mask ≤ fuel)
    (hk : mask.testBit k = true) (hlow : ∀ j, j < k → mask.testBit j = false) :
    shift_lockstep fuel mask value = (mask >>> k, value >>> k) := by
  induction fuel generalizing mask value k with
  | zero =>
    have : mask = 0 := Nat.le_zero.mp hfuel
    subst this
    simp at hk
  | succ fuel ih =>
    by_cases hpar : mask % 2 = 0
    · have hk0 : k ≠ 0 := by
        rintro rfl
        rw [Nat.testBit_zero] at hk
        simp [hpar] at hk
      obtain ⟨k', rfl⟩ := Nat.exists_eq_succ_of_ne_zero hk0
      have hmask0 : mask ≠ 0 := by
        rintro rfl
        simp at hk
      have hfuel' : mask / 2 ≤ fuel := by
        have := Nat.div_lt_self (Nat.pos_of_ne_zero hmask0) (by norm_num : 1 < 2)
        omega
      have hk' : (mask / 2).testBit k' = true := by
        rw [Nat.testBit_div_two]; exact hk
      have hlow' : ∀ j, j < k' → (mask / 2).testBit j = false := by
        intro j hj
        rw [Nat.testBit_div_two]
        exact hlow (j + 1) (by omega)
      rw [shift_lockstep, if_pos hpar, ih (mask / 2) (value / 2) k' hfuel' hk' hlow']
      rw [Nat.shiftRight_succ_inside, Nat.shiftRight_succ_inside]
    · have hk0 : k = 0 := by
        by_contra hne
        have := hlow 0 (Nat.pos_of_ne_zero hne)
        rw [Nat.testBit_zero] at this
        simp at this
        omega
      subst hk0
      rw [shift_lockstep, if_neg hpar]
      simp [Nat.shiftRight_zero]

/-- Splitting the instruction fold at a failing instruction. -/
theorem execOps_error (backend : String) (kern : Kernel) (qureg : List Nat)
    (s0 s1 : SimState) (ops1 ops2 : List Instruction) (op : Instruction) (msg : String)
    (hpre : execOps backend kern qureg s0 ops1 = .ok s1)
    (hop : execOp backend kern qureg s1 op = .error msg) :
    execOps backend kern qureg s0 (ops1 ++ op :: ops2) = .error msg := by
  rw [execOps, List.foldlM_append]
  rw [execOps] at hpre
  rw [hpre]
  show List.foldlM (execOp backend kern qureg) s1 (op :: ops2) = .error msg
  rw [List.foldlM_cons, hop]
  rfl

/-- A failing instruction list fails the whole shot. -/
theorem runShot_error (backend : String) (kern : Kernel) (qureg : List Nat)
    (nQubits nClbits : Nat) (ops : List Instruction) (s : SimState) (msg : String)
    (h : execOps backend kern qureg { s with classical_state := 0 } ops = .error msg) :
    runShot backend kern qureg nQubits nClbits ops 0 s = .error msg := by
  rw [runShot]
  simp only [gt_iff_lt, Nat.lt_irrefl, if_false]
  rw [h]

/-- A failing first shot fails the whole shot loop. -/
theorem runShotsAux_error_first (backend : String) (kern : Kernel) (qureg : List Nat)
    (nQubits nClbits : Nat) (ops : List Instruction) (n : Nat) (s : SimState)
    (outs : List String) (msg : String)
    (h : runShot backend kern qureg nQubits nClbits ops 0 s = .error msg) :
    runShotsAux backend kern qureg nQubits nClbits ops 0 (n + 1) s outs = .error msg := by
  rw [runShotsAux, h]

/-- A failing shot loop fails `run_circuit`. -/
theorem run_circuit_error (backend : String) (kernels : Nat → Kernel)
    (jobSeed jobShots : Nat) (c : Circuit) (msg : String)
    (h : runShotsAux backend (kernels (circuitSimSeed jobSeed c)) (circuitQureg c)
      c.header.number_of_qubits c.header.number_of_clbits c.instructions 0 jobShots {} []
      = .error msg) :
    run_circuit backend kernels jobSeed jobShots c = .error msg := by
  rw [run_circuit]
  simp only
  rw [h]

/-- A reached `reset` instruction whose conditional clause is absent or
evaluates true raises the unimplemented-operation error. -/
theorem execOp_reset (backend : String) (kern : Kernel) (qureg : List Nat)
    (s : SimState) (op : Instruction) (hname : op.name = "reset")
    (hcond : op.conditional = none ∨
      ∃ cond, op.conditional = some cond ∧
        evaluate_conditional s.classical_state cond.mask cond.val = true) :
    execOp backend kern qureg s op = .error reset_error_msg := by
  rcases hcond with hc | ⟨cond, hc, heval⟩
  · simp [execOp, hname, hc]
  · simp [execOp, hname, hc, heval]

/-! Claim theorems. -/

/-- C1, counterexample: a circuit whose only instruction is a `reset`
guarded by a conditional clause that evaluates false (mask `0x1`, expected
`0x1`, against the all-zero classical state) executes successfully — the
conditional screening of lines 200-208 runs before the dispatch chain and
skips the reset, so the claimed unconditional failure does not happen. -/
theorem claim_C1_counterexample :
    conditionalResetCircuit.instructions.map (·.name) = ["reset"] ∧
    (run_circuit qasm_backend_name testKernels 0 1 conditionalResetCircuit).isOk = true :=
  ⟨rfl, by decide⟩

/-- C1, amended: executing a circuit fails with the unimplemented-operation
error whenever the first shot reaches a `reset` instruction whose
conditional clause is absent or evaluates true against the classical state
at that point — regardless of the reset's position in the instruction list.
(Conditional screening applies to every instruction, reset and unrecognized
operations included: a reset whose conditional evaluates false is skipped
with no effect.) -/
theorem claim_C1_amended (backend : String) (kernels : Nat → Kernel)
    (jobSeed jobShots : Nat) (c : Circuit) (ops1 ops2 : List Instruction)
    (op : Instruction) (s1 : SimState)
    (hsplit : c.instructions = ops1 ++ op :: ops2)
    (hname : op.name = "reset")
    (hcond : op.conditional = none ∨
      ∃ cond, op.conditional = some cond ∧
        evaluate_conditional s1.classical_state cond.mask cond.val = true)
    (hshots : 0 < jobShots)
    (hpre : execOps backend (kernels (circuitSimSeed jobSeed c)) (circuitQureg c)
      {} ops1 = .ok s1) :
    run_circuit backend kernels jobSeed jobShots c = .error reset_error_msg := by
  obtain ⟨n, rfl⟩ : ∃ n, jobShots = n + 1 := ⟨jobShots - 1, by omega⟩
  apply run_circuit_error
  apply runShotsAux_error_first
  apply runShot_error
  rw [hsplit]
  exact execOps_error _ _ _ _ _ _ _ _ _ hpre
    (execOp_reset _ _ _ _ _ hname hcond)

/-- C1, witness for the amended claim: a circuit whose only instruction is
an unconditional `reset` fails with the reset error. -/
theorem claim_C1_amended_witness :
    run_circuit qasm_backend_name testKernels 0 1 unconditionalResetCircuit
      = .error reset_error_msg :=
  claim_C1_amended qasm_backend_name testKernels 0 1 unconditionalResetCircuit
    [] [] _ {} rfl rfl (Or.inl rfl) (by decide) rfl

/-- C2, counterexample: the claim describes the conditional check as
right-shifting the raw classical state alongside the mask; the code
(line 203) first masks the state (`value = classical_state & mask`) and
shifts that.  With classical state `0b1100`, mask `0b0110` and expected
value `0b10` the code's check passes while the claimed procedure compares
the shifted state `0b110` with `0b10` and fails. -/
theorem claim_C2_counterexample :
    evaluate_conditional 12 6 2 = true ∧
    evaluate_conditional_spec_unmasked 12 6 2 = false := by
  decide

/-- C2, amended: a zero mask always evaluates true; for a nonzero mask the
state is first ANDed with the mask, then the masked value and the mask are
right-shifted in lock-step until the mask's least significant set bit
(position `k`) reaches bit 0, and the shifted masked value is compared with
the expected value.  In particular mask `0b0110`, classical state `0b0100`,
expected `0b10` evaluates true. -/
theorem claim_C2_amended :
    (∀ s v : Nat, evaluate_conditional s 0 v = true) ∧
    (∀ s m v k : Nat, m.testBit k = true → (∀ j, j < k → m.testBit j = false) →
      (evaluate_conditional s m v = true ↔ (s &&& m) >>> k = v)) ∧
    evaluate_conditional 4 6 2 = true := by
  refine ⟨fun s v => by simp [evaluate_conditional], ?_, by decide⟩
  intro s m v k hk hlow
  have hm : m ≠ 0 := by rintro rfl; simp at hk
  rw [evaluate_conditional, if_neg hm,
    shift_lockstep_eq m m (s &&& m) k (Nat.le_refl m) hk hlow]
  simp

/-- C2, witness: the amended characterization applied at state `0b10100`,
mask `0b0110`, expected `0b10`. -/
theorem claim_C2_amended_witness : evaluate_conditional 20 6 2 = true :=
  (claim_C2_amended.2.1 20 6 2 1 (by decide) (by decide)).mpr (by decide)

/-- C10 (confirmed): for a nonzero mask, the conditional decision depends
only on the mask-selected bits of the classical state — two states agreeing
on every set bit of the mask produce the same decision, whatever their other
bits. -/
theorem claim_C10 : ∀ m v s1 s2 : Nat, m ≠ 0 →
    (∀ i, m.testBit i = true → s1.testBit i = s2.testBit i) →
    evaluate_conditional s1 m v = evaluate_conditional s2 m v := by
  intro m v s1 s2 _ h
  have hand : s1 &&& m = s2 &&& m := by
    apply Nat.eq_of_testBit_eq
    intro i
    rw [Nat.testBit_and, Nat.testBit_and]
    by_cases hm : m.testBit i = true
    · rw [h i hm]
    · simp at hm
      rw [hm]
      simp
  rw [evaluate_conditional, evaluate_conditional, hand]

/-- C10, witness: states 0 and 2 agree on the single bit selected by mask 1
and get the same decision. -/
theorem claim_C10_witness :
    evaluate_conditional 0 1 0 = evaluate_conditional 2 1 0 :=
  claim_C10 1 0 0 2 (by decide)
    (fun i hi => by
      have h0 := Nat.testBit_one_eq_true_iff_self_eq_zero.mp hi
      subst h0
      decide)

/-! Counting lemmas: the histogram's counts sum to the number of shots. -/

/-- A key that fails lookup heads no entry of the association list. -/
theorem lookup_none_fst (o : String) : ∀ acc : List (String × Nat),
    acc.lookup o = none → ∀ e ∈ acc, e.1 ≠ o := by
  intro acc
  induction acc with
  | nil => intro _ e he; simp at he
  | cons kv rest ih =>
    intro h e he
    rw [List.lookup] at h
    by_cases hk : o == kv.1
    · simp [hk] at h
    · simp only [hk] at h
      cases he with
      | head =>
        intro hc
        rw [hc] at hk
        simp at hk
      | tail _ hmem => exact ih h e hmem

/-- Bumping the entry of a present key raises the total count by one. -/
theorem bump_sum (o : String) : ∀ acc : List (String × Nat),
    (acc.map (·.1)).Nodup → (acc.lookup o).isSome →
    (((acc.map fun e => if e.1 = o then (e.1, e.2 + 1) else e).map (·.2)).sum
      = ((acc.map (·.2)).sum) + 1) := by
  intro acc
  induction acc with
  | nil => simp
  | cons kv rest ih =>
    intro hnd hsome
    simp only [List.map_cons, List.nodup_cons] at hnd
    by_cases hk : kv.1 = o
    · have hrest : (rest.map fun e => if e.1 = o then (e.1, e.2 + 1) else e) = rest := by
        conv_rhs => rw [← List.map_id rest]
        apply List.map_congr_left
        intro a ha
        have hne : a.1 ≠ o := by
          intro h
          exact hnd.1 (by rw [hk, ← h]; exact List.mem_map_of_mem _ ha)
        simp [hne]
      simp only [List.map_cons, List.sum_cons, hrest, hk]
      simp
      omega
    · have hbeq : (o == kv.1) = false := by
        simp only [beq_eq_false_iff_ne, ne_eq]
        intro h; exact hk h.symm
      rw [List.lookup, hbeq] at hsome
      simp only at hsome
      have := ih hnd.2 hsome
      simp only [List.map_cons, List.sum_cons, if_neg hk, this]
      omega

/-- Bumping a count leaves the key list unchanged. -/
theorem bump_fst (o : String) (acc : List (String × Nat)) :
    ((acc.map fun e => if e.1 = o then (e.1, e.2 + 1) else e).map (·.1)) = acc.map (·.1) := by
  rw [List.map_map]
  apply List.map_congr_left
  intro a _
  by_cases hk : a.1 = o <;> simp [hk]

/-- Folding `countStep` over a list adds its length to the total count. -/
theorem countFold_sum : ∀ (l : List String) (acc : List (String × Nat)),
    (acc.map (·.1)).Nodup →
    (((l.foldl countStep acc).map (·.2)).sum = (acc.map (·.2)).sum + l.length) := by
  intro l
  induction l with
  | nil => intro acc _; simp
  | cons o l ih =>
    intro acc hnd
    rw [List.foldl_cons]
    have hstep_nd : ((countStep acc o).map (·.1)).Nodup := by
      rw [countStep]
      by_cases hs : (acc.lookup o).isSome
      · rw [if_pos hs, bump_fst]
        exact hnd
      · rw [if_neg hs]
        have hnone : acc.lookup o = none := by
          cases h : acc.lookup o
          · rfl
          · rw [h] at hs; simp at hs
        have hnotin : o ∉ acc.map (·.1) := by
          intro hmem
          obtain ⟨e, he, heq⟩ := List.mem_map.mp hmem
          exact lookup_none_fst o acc hnone e he heq
        simp [List.nodup_append, hnd, hnotin]
    have hstep_sum : ((countStep acc o).map (·.2)).sum = (acc.map (·.2)).sum + 1 := by
      rw [countStep]
      by_cases hs : (acc.lookup o).isSome
      · rw [if_pos hs]
        exact bump_sum o acc hnd hs
      · rw [if_neg hs]
        simp
    rw [ih _ hstep_nd, hstep_sum]
    simp
    omega

/-- The histogram of an outcome list counts every outcome exactly once. -/
theorem countOccurrences_sum (l : List String) :
    ((countOccurrences l).map (·.2)).sum = l.length := by
  rw [countOccurrences, countFold_sum l [] (by simp)]
  simp

/-- A successful shot loop produces exactly one outcome per shot. -/
theorem runShotsAux_length (backend : String) (kern : Kernel) (qureg : List Nat)
    (nQubits nClbits : Nat) (ops : List Instruction) :
    ∀ (r i : Nat) (s : SimState) (outs : List String) (s' : SimState) (outs' : List String),
    runShotsAux backend kern qureg nQubits nClbits ops i r s outs = .ok (s', outs') →
    outs'.length = outs.length + r := by
  intro r
  induction r with
  | zero =>
    intro i s outs s' outs' h
    rw [runShotsAux] at h
    injection h with h
    injection h with _ h2
    subst h2
    simp
  | succ r ih =>
    intro i s outs s' outs' h
    rw [runShotsAux] at h
    cases hs : runShot backend kern qureg nQubits nClbits ops i s with
    | error e => rw [hs] at h; exact absurd h (by simp)
    | ok p =>
      rw [hs] at h
      have := ih (i + 1) p.1 (outs ++ [p.2]) s' outs' h
      simp at this
      omega

/-- Key rewriting keeps every count value. -/
theorem format_result_snd (counts : List (String × Nat)) (idx nb : List Nat) :
    ((format_result counts idx nb).map (·.2)) = counts.map (·.2) := by
  rw [format_result, List.map_map]
  rfl

/-- A successful `run_circuit` reports the job-level shot count and records
exactly that many shots in its histogram. -/
theorem run_circuit_shots (backend : String) (kernels : Nat → Kernel)
    (jobSeed jobShots : Nat) (c : Circuit) (r : CircuitResult)
    (h : run_circuit backend kernels jobSeed jobShots c = .ok r) :
    r.shots = jobShots ∧ countsTotal r = jobShots := by
  rw [run_circuit] at h
  simp only at h
  cases hs : runShotsAux backend (kernels (circuitSimSeed jobSeed c)) (circuitQureg c)
      c.header.number_of_qubits c.header.number_of_clbits c.instructions 0 jobShots {} [] with
  | error e => rw [hs] at h; exact absurd h (by simp)
  | ok p =>
    rw [hs] at h
    injection h with h
    subst h
    refine ⟨rfl, ?_⟩
    rw [countsTotal]
    simp only
    rw [format_result_snd, countOccurrences_sum]
    have := runShotsAux_length backend (kernels (circuitSimSeed jobSeed c)) (circuitQureg c)
      c.header.number_of_qubits c.header.number_of_clbits c.instructions jobShots 0 {} []
      p.1 p.2 (by rw [hs])
    simp at this
    exact this

/-- C3, counterexample: a circuit carrying the per-circuit override
`shots = 5` (and `seed = 7`), run under a job-level shot count of 2,
records 2 shots — not the claimed 5.  `run_circuit` never reads
`circuit.config.shots` (lines 172-175 only read `seed`); the loop at
line 187 always uses the job-level `self._shots`. -/
theorem claim_C3_counterexample :
    (run_circuit qasm_backend_name testKernels 0 2 overrideShotsCircuit).toOption.map
      countsTotal = some 2 ∧
    ((run_circuit qasm_backend_name testKernels 0 2 overrideShotsCircuit).toOption.map
      countsTotal ≠ some 5) := by
  decide

/-- C3, amended: a per-circuit config override replaces only the simulator
seed — and only when the circuit's seed is present and nonzero (Python
truthiness).  The per-circuit shot count is ignored: every circuit runs, and
its result reports, the job-level shot count. -/
theorem claim_C3_amended (backend : String) (kernels : Nat → Kernel)
    (jobSeed jobShots : Nat) (c : Circuit) (cfg : Cfg) (s : Nat)
    (hcfg : c.config = some cfg) (hseed : cfg.seed = some s) (hs0 : s ≠ 0) :
    circuitSimSeed jobSeed c = s ∧
    ∀ r, run_circuit backend kernels jobSeed jobShots c = .ok r →
      r.shots = jobShots ∧ countsTotal r = jobShots := by
  constructor
  · simp [circuitSimSeed, hcfg, hseed, hs0]
  · intro r h
    exact run_circuit_shots backend kernels jobSeed jobShots c r h

/-- C3, witness: the circuit with override `seed = 7, shots = 5` under job
shot count 2 reseeds the simulator with 7 and records 2 shots. -/
theorem claim_C3_amended_witness :
    circuitSimSeed 0 overrideShotsCircuit = 7 ∧
    (run_circuit qasm_backend_name testKernels 0 2 overrideShotsCircuit).toOption.map
      countsTotal = some 2 := by
  have h := claim_C3_amended qasm_backend_name testKernels 0 2 overrideShotsCircuit
    { shots := some 5, seed := some 7 } 7 rfl rfl (by decide)
  refine ⟨h.1, ?_⟩
  have hok : (run_circuit qasm_backend_name testKernels 0 2 overrideShotsCircuit).isOk
      = true := by decide
  rcases hres : run_circuit qasm_backend_name testKernels 0 2 overrideShotsCircuit with e | r
  · rw [hres] at hok
    simp [Except.isOk, Except.toBool] at hok
  · have h2 := h.2 r hres
    simp [Except.toOption, h2.2]

/-! Measurement-update algebra (claim C4). -/

/-- A bit value of at most 1 shifted to position `c` has no other bit set. -/
theorem testBit_bit_shift (b c i : Nat) (hb : b ≤ 1) (hne : i ≠ c) :
    (b <<< c).testBit i = false := by
  rcases Nat.le_one_iff_eq_zero_or_eq_one.mp hb with rfl | rfl
  · simp
  · rw [Nat.testBit_shiftLeft]
    rcases Nat.lt_or_ge i c with h | h
    · simp [Nat.not_le.mpr h]
    · have : i - c ≠ 0 := by omega
      have h1 : (1 : Nat).testBit (i - c) = false := by
        by_contra hcon
        simp only [Bool.not_eq_false] at hcon
        exact this (Nat.testBit_one_eq_true_iff_self_eq_zero.mp hcon)
      simp [h1]

/-- On a state whose target bit is clear, the clear-then-set measurement
update degenerates to a plain bitwise OR of the shifted bit. -/
theorem measure_update_eq_or (s c b : Nat) (hbit : s.testBit c = false) :
    measure_update s c b = s ||| (b <<< c) := by
  rw [measure_update]
  congr 1
  apply Nat.eq_of_testBit_eq
  intro i
  rw [Nat.testBit_ldiff]
  by_cases hic : i = c
  · subst hic
    rw [hbit]
    simp
  · rw [testBit_bit_shift 1 c i (by omega) hic]
    simp

/-- Folding measurement updates over events with pairwise-distinct target
bits, starting from a state with all those bits clear, equals folding ORs of
the shifted bits. -/
theorem fold_measure_eq_or : ∀ (l : List (Nat × Nat)) (s : Nat),
    (∀ p ∈ l, p.2 ≤ 1) → (l.map Prod.fst).Nodup → (∀ p ∈ l, s.testBit p.1 = false) →
    l.foldl (fun a p => measure_update a p.1 p.2) s
      = l.foldl (fun a p => a ||| (p.2 <<< p.1)) s := by
  intro l
  induction l with
  | nil => intro s _ _ _; rfl
  | cons p rest ih =>
    intro s hb hnd hfree
    simp only [List.map_cons, List.nodup_cons] at hnd
    rw [List.foldl_cons, List.foldl_cons]
    rw [measure_update_eq_or s p.1 p.2 (hfree p (by simp))]
    apply ih
    · intro q hq; exact hb q (by simp [hq])
    · exact hnd.2
    · intro q hq
      rw [Nat.testBit_or]
      have h1 : s.testBit q.1 = false := hfree q (by simp [hq])
      have h2 : (p.2 <<< p.1).testBit q.1 = false := by
        apply testBit_bit_shift _ _ _ (hb p (by simp))
        intro hc
        exact hnd.1 (hc ▸ List.mem_map_of_mem Prod.fst hq)
      rw [h1, h2]
      rfl

/-- Folding bitwise ORs is invariant under permutation of the events. -/
theorem foldl_or_perm : ∀ {l1 l2 : List (Nat × Nat)}, l1.Perm l2 →
    ∀ s : Nat, l1.foldl (fun a p => a ||| (p.2 <<< p.1)) s
      = l2.foldl (fun a p => a ||| (p.2 <<< p.1)) s := by
  intro l1 l2 hperm
  induction hperm with
  | nil => intro s; rfl
  | cons x _ ih => intro s; rw [List.foldl_cons, List.foldl_cons, ih]
  | swap x y l =>
    intro s
    rw [List.foldl_cons, List.foldl_cons, List.foldl_cons, List.foldl_cons]
    rw [Nat.or_assoc, Nat.or_comm (y.2 <<< y.1) (x.2 <<< x.1), ← Nat.or_assoc]
  | trans _ _ ih1 ih2 => intro s; rw [ih1, ih2]

/-- C4 (confirmed): starting from the zero classical state reset at shot
start, folding the code's measurement update (line 247-250) over a list of
(target classical bit, measured bit) events with pairwise-distinct targets
equals the bitwise OR of each measured bit shifted into its target position;
and the final value is the same for every execution order of the events. -/
theorem claim_C4 (l lperm : List (Nat × Nat))
    (hbits : ∀ p ∈ l, p.2 ≤ 1) (hnd : (l.map Prod.fst).Nodup) (hperm : lperm.Perm l) :
    (l.foldl (fun a p => measure_update a p.1 p.2) 0
      = l.foldl (fun a p => a ||| (p.2 <<< p.1)) 0)
    ∧ lperm.foldl (fun a p => measure_update a p.1 p.2) 0
      = l.foldl (fun a p => measure_update a p.1 p.2) 0 := by
  have part1 : l.foldl (fun a p => measure_update a p.1 p.2) 0
      = l.foldl (fun a p => a ||| (p.2 <<< p.1)) 0 :=
    fold_measure_eq_or l 0 hbits hnd (fun p _ => Nat.zero_testBit p.1)
  refine ⟨part1, ?_⟩
  have hb' : ∀ p ∈ lperm, p.2 ≤ 1 := fun p hp => hbits p (hperm.mem_iff.mp hp)
  have hnd' : (lperm.map Prod.fst).Nodup := ((hperm.map Prod.fst).nodup_iff).mpr hnd
  rw [fold_measure_eq_or lperm 0 hb' hnd' (fun p _ => Nat.zero_testBit p.1)]
  rw [foldl_or_perm hperm 0, part1]

/-- C4, witness: measuring bit 1 into classical bit 0 and bit 1 into
classical bit 2, in either order. -/
theorem claim_C4_witness :
    ([((0 : Nat), (1 : Nat)), (2, 1)].foldl (fun a p => measure_update a p.1 p.2) 0
      = [((0 : Nat), (1 : Nat)), (2, 1)].foldl (fun a p => a ||| (p.2 <<< p.1)) 0)
    ∧ [((2 : Nat), (1 : Nat)), (0, 1)].foldl (fun a p => measure_update a p.1 p.2) 0
      = [((0 : Nat), (1 : Nat)), (2, 1)].foldl (fun a p => measure_update a p.1 p.2) 0 :=
  claim_C4 [(0, 1), (2, 1)] [(2, 1), (0, 1)] (by decide) (by decide) (by decide)

/-- C5 (confirmed): a `U`/`u3` instruction with parameter list [θ, φ, λ]
whose conditional screening passes makes exactly three kernel calls on the
target qubit, in order: Z-rotation by λ, Y-rotation by θ, Z-rotation by φ
(lines 210-215), and changes nothing else in the simulator state. -/
theorem claim_C5 (backend : String) (kern : Kernel) (qureg : List Nat)
    (s : SimState) (op : Instruction) (theta phi lam : ℚ) (qi : Nat)
    (hname : op.name = "U" ∨ op.name = "u3")
    (hparams : op.params = [theta, phi, lam])
    (hqubits : op.qubits = [qi])
    (hcond : op.conditional = none) :
    execOp backend kern qureg s op = .ok { s with trace := s.trace ++
      [.rz lam (qureg.getD qi 0), .ry theta (qureg.getD qi 0),
       .rz phi (qureg.getD qi 0)] } := by
  rcases hname with h | h <;> simp [execOp, h, hparams, hqubits, hcond]

/-- C5, witness: `u3(1, 2, 3)` on qubit 0 emits Rz(3), Ry(1), Rz(2). -/
theorem claim_C5_witness :
    execOp qasm_backend_name (testKernels 0) [0] {}
      { name := "u3", qubits := [0], params := [1, 2, 3] }
      = .ok { trace := [.rz 3 0, .ry 1 0, .rz 2 0] } :=
  claim_C5 qasm_backend_name (testKernels 0) [0] {}
    { name := "u3", qubits := [0], params := [1, 2, 3] } 1 2 3 0
    (Or.inr rfl) rfl rfl rfl

/-! Register-layout lemmas (claim C6). -/

/-- Consuming a run of labels sharing the group's name folds their indices
into the running maximum. -/
theorem get_register_specs_aux_run (n : String) :
    ∀ (xs : List Nat) (m : Nat) (rest : List (String × Nat)),
    get_register_specs_aux n m (xs.map (fun i => (n, i)) ++ rest)
      = get_register_specs_aux n (xs.foldl max m) rest := by
  intro xs
  induction xs with
  | nil => intro m rest; rfl
  | cons i xs ih =>
    intro m rest
    simp only [List.map_cons, List.cons_append]
    rw [get_register_specs_aux, if_pos rfl, ih (max m i) rest, List.foldl_cons]

/-- C6 (confirmed): on a label list formed of nonempty per-register runs
with adjacent runs named differently (which contiguity guarantees), the
register layout resolver yields one (name, 1 + max local index) entry per
run, in first-appearance order. -/
theorem claim_C6 (runs : List (String × List Nat))
    (hne : ∀ r ∈ runs, r.2 ≠ [])
    (hchain : runs.Chain' (fun a b => a.1 ≠ b.1)) :
    get_register_specs (runs.flatMap fun r => r.2.map (fun i => (r.1, i)))
      = runs.map fun r => (r.1, runMax r.2 + 1) := by
  induction runs with
  | nil => rfl
  | cons run rest ih =>
    obtain ⟨n, idxs⟩ := run
    obtain ⟨i, xs, rfl⟩ : ∃ i xs, idxs = i :: xs := by
      cases idxs with
      | nil => exact absurd rfl (hne (n, []) (by simp))
      | cons i xs => exact ⟨i, xs, rfl⟩
    rw [List.flatMap_cons]
    simp only [List.map_cons, List.cons_append]
    rw [get_register_specs]
    rw [get_register_specs_aux_run n xs i (rest.flatMap fun r => r.2.map (fun i => (r.1, i)))]
    cases rest with
    | nil =>
      simp [get_register_specs_aux, runMax]
    | cons run2 rest2 =>
      obtain ⟨n2, idxs2⟩ := run2
      obtain ⟨j, ys, rfl⟩ : ∃ j ys, idxs2 = j :: ys := by
        cases idxs2 with
        | nil => exact absurd rfl (hne (n2, []) (by simp))
        | cons j ys => exact ⟨j, ys, rfl⟩
      have hne2 : n2 ≠ n := by
        have := List.chain'_cons.mp hchain
        exact fun h => this.1 h.symm
      rw [List.flatMap_cons]
      simp only [List.map_cons, List.cons_append]
      rw [get_register_specs_aux, if_neg hne2]
      have ihr := ih (fun r hr => hne r (by simp [hr]))
        (List.chain'_cons.mp hchain).2
      rw [List.flatMap_cons] at ihr
      simp only [List.map_cons, List.cons_append] at ihr
      rw [get_register_specs] at ihr
      rw [ihr]
      simp [runMax]

/-- C6, witness: the spec's example, `[('c',0),('c',1),('d',0)]` resolves to
`{'c': 2, 'd': 1}` in that order. -/
theorem claim_C6_witness :
    get_register_specs [("c", 0), ("c", 1), ("d", 0)] = [("c", 2), ("d", 1)] :=
  claim_C6 [("c", [0, 1]), ("d", [0])] (by decide) (by simp)

/-! Result-formatting lemmas (claim C7). -/

/-- Negative-index slicing for a later register (offset at least 1) is the
take/drop window `[len - o - s, len - o)`. -/
theorem pySlice_neg (key : List Char) (o s : Nat) (ho : 0 < o) :
    pySlice key (-(o + s : Nat) : Int) (-(o : Nat) : Int)
      = (key.take (key.length - o)).drop (key.length - o - s) := by
  rw [pySlice]
  simp only
  have hstart : (if (-(o + s : Nat) : Int) < 0 then (key.length : Int) + (-(o + s : Nat) : Int)
      else (-(o + s : Nat) : Int)) = (key.length : Int) - ((o + s : Nat) : Int) := by
    rw [if_pos (by omega)]
    omega
  have hstop : (if (-(o : Nat) : Int) < 0 then (key.length : Int) + (-(o : Nat) : Int)
      else (-(o : Nat) : Int)) = (key.length : Int) - ((o : Nat) : Int) := by
    rw [if_pos (by omega)]
    omega
  rw [hstart, hstop, Int.toNat_sub, Int.toNat_sub]
  have h1 : min (key.length - (o + s)) key.length = key.length - (o + s) := by omega
  have h2 : min (key.length - o) key.length = key.length - o := by omega
  rw [h1, h2]
  congr 1
  omega

/-- The first register's tail slice `key[-n0:]` is the take/drop window of a
register at offset 0. -/
theorem pySlice_first (key : List Char) (n0 : Nat) (h0 : 0 < n0) :
    pySlice key (-(n0 : Nat) : Int) (key.length : Int)
      = (key.take (key.length - 0)).drop (key.length - 0 - n0) := by
  rw [pySlice]
  simp only
  have hstart : (if (-(n0 : Nat) : Int) < 0 then (key.length : Int) + (-(n0 : Nat) : Int)
      else (-(n0 : Nat) : Int)) = (key.length : Int) - ((n0 : Nat) : Int) := by
    rw [if_pos (by omega)]
    omega
  have hstop : (if (key.length : Int) < 0 then (key.length : Int) + (key.length : Int)
      else (key.length : Int)) = ((key.length : Nat) : Int) := by
    rw [if_neg (by omega)]
  rw [hstart, hstop, Int.toNat_sub, Int.toNat_ofNat]
  have h1 : min (key.length - n0) key.length = key.length - n0 := by omega
  have h2 : min key.length key.length = key.length := by omega
  rw [h1, h2]
  have h3 : key.length - 0 = key.length := by omega
  rw [h3]

/-- Folding `insert(0, ·)` reverses the mapped list in front of the seed. -/
theorem foldl_prepend {α β : Type} (f : α → β) :
    ∀ (l : List α) (init : List β),
    l.foldl (fun acc p => f p :: acc) init = (l.map f).reverse ++ init := by
  intro l
  induction l with
  | nil => intro init; simp
  | cons x xs ih =>
    intro init
    rw [List.foldl_cons, ih (f x :: init)]
    simp

/-- Every offset produced from a running sum is at least the start value. -/
theorem offsetsFrom_le : ∀ (sizes : List Nat) (acc o : Nat),
    o ∈ offsetsFrom acc sizes → acc ≤ o := by
  intro sizes
  induction sizes with
  | nil => intro acc o h; exact absurd h (List.not_mem_nil o)
  | cons s rest ih =>
    intro acc o h
    rw [offsetsFrom] at h
    rcases List.mem_cons.mp h with rfl | h
    · exact Nat.le_refl _
    · have := ih (acc + s) o h
      omega

/-- The code's negative-slicing key rewrite coincides with the spec's
per-register windows when the offsets are the running sums of positive
register sizes. -/
theorem format_key_eq_spec (key : List Char) (sizes : List Nat)
    (hne : sizes ≠ []) (hpos : ∀ s ∈ sizes, 0 < s) :
    format_key key (offsetsFrom 0 sizes) sizes
      = format_key_spec key ((offsetsFrom 0 sizes).zip sizes) := by
  obtain ⟨n0, rest, rfl⟩ : ∃ n0 rest, sizes = n0 :: rest := by
    cases sizes with
    | nil => exact absurd rfl hne
    | cons n0 rest => exact ⟨n0, rest, rfl⟩
  rw [format_key]
  simp only [offsetsFrom, Nat.zero_add, List.drop_succ_cons, List.drop_zero]
  rw [format_key_spec]
  rw [List.zip_cons_cons]
  rw [List.map_cons]
  rw [List.reverse_cons]
  rw [foldl_prepend (fun p : Nat × Nat => pySlice key (-(p.1 + p.2 : Int)) (-(p.1 : Int)))]
  congr 1
  · congr 1
    apply List.map_congr_left
    intro p hp
    obtain ⟨hp1, hp2⟩ := List.of_mem_zip hp
    have ho : 0 < p.1 := by
      have h1 := offsetsFrom_le rest n0 p.1 hp1
      have h2 := hpos n0 (by simp)
      omega
    have := pySlice_neg key p.1 p.2 ho
    push_cast at this ⊢
    rw [this]
  · have := pySlice_first key n0 (hpos n0 (by simp))
    push_cast at this ⊢
    rw [this]

/-- C7 (confirmed): with per-register offsets equal to the running sums of
positive register sizes in declaration order, the result formatter rewrites
every histogram key into the space-joined per-register substrings, last
declared register leftmost, and keeps every count unchanged. -/
theorem claim_C7 (counts : List (String × Nat)) (sizes : List Nat)
    (hne : sizes ≠ []) (hpos : ∀ s ∈ sizes, 0 < s) :
    format_result counts (offsetsFrom 0 sizes) sizes
      = format_result_spec counts ((offsetsFrom 0 sizes).zip sizes)
    ∧ (format_result counts (offsetsFrom 0 sizes) sizes).map (·.2) = counts.map (·.2) := by
  constructor
  · rw [format_result, format_result_spec]
    apply List.map_congr_left
    intro kv _
    rw [format_key_eq_spec kv.1.toList sizes hne hpos]
  · exact format_result_snd counts (offsetsFrom 0 sizes) sizes

/-- C7, witness: the spec's example — counts `{'0101': 10}` with register
sizes [2, 2] and offsets [0, 2] yields the key `'01 01'` with count 10. -/
theorem claim_C7_witness :
    format_result [("0101", 10)] [0, 2] [2, 2] = [("01 01", 10)] :=
  ((claim_C7 [("0101", 10)] [2, 2] (by decide) (by decide)).1).trans (by decide)

/-! Statevector-variant validation lemmas (claim C8). -/

/-- A circuit with a measure or reset instruction anywhere in the job makes
the per-circuit validation loop fail. -/
theorem sv_validate_circuits_error : ∀ cs : List Circuit,
    (∃ c ∈ cs, ∃ op ∈ c.instructions, op.name = "measure" ∨ op.name = "reset") →
    (sv_validate_circuits cs).isOk = false := by
  intro cs
  induction cs with
  | nil => rintro ⟨c, hc, _⟩; exact absurd hc (List.not_mem_nil c)
  | cons c rest ih =>
    rintro ⟨c0, hc0, op, hop, hname⟩
    rw [sv_validate_circuits]
    by_cases hany : c.instructions.any (fun op => op.name == "measure" || op.name == "reset")
    · simp only [hany, if_true]
      rfl
    · rcases List.mem_cons.mp hc0 with rfl | hc0
      · exfalso
        apply hany
        apply List.any_eq_true.mpr
        refine ⟨op, hop, ?_⟩
        rcases hname with h | h <;> simp [h]
      · simp only [hany, if_false, Bool.false_eq_true]
        have := ih ⟨c0, hc0, op, hop, hname⟩
        cases hrec : sv_validate_circuits rest with
        | error e => rfl
        | ok p => rw [hrec] at this; exact absurd this (by simp [Except.isOk, Except.toBool])

/-- The shot-count coercion always leaves `shots = 1`. -/
theorem set_shots_to_1_shots (config : Option Cfg) :
    (set_shots_to_1 config).1.shots = some 1 := by
  cases config <;> rfl

/-- The coercion's diagnostic fires exactly when a pre-existing config had a
shot count different from 1. -/
theorem set_shots_to_1_warn (config : Option Cfg) :
    (set_shots_to_1 config).2 = overrideWarn config := by
  cases config <;> rfl

/-- On success, the validation loop leaves every circuit with a config
holding `shots = 1` and reports one diagnostic flag per circuit. -/
theorem sv_validate_circuits_ok : ∀ (cs cs' : List Circuit) (ws : List Bool),
    sv_validate_circuits cs = .ok (cs', ws) →
    (∀ c1 ∈ cs', ∃ cc, c1.config = some cc ∧ cc.shots = some 1)
    ∧ ws = cs.map (fun c => overrideWarn c.config) := by
  intro cs
  induction cs with
  | nil =>
    intro cs' ws h
    rw [sv_validate_circuits] at h
    injection h with h
    injection h with h1 h2
    subst h1; subst h2
    exact ⟨fun c1 hc1 => absurd hc1 (List.not_mem_nil c1), rfl⟩
  | cons c rest ih =>
    intro cs' ws h
    rw [sv_validate_circuits] at h
    by_cases hany : c.instructions.any (fun op => op.name == "measure" || op.name == "reset")
    · rw [if_pos hany] at h
      exact absurd h (by simp)
    · rw [if_neg hany] at h
      cases hrec : sv_validate_circuits rest with
      | error e => rw [hrec] at h; exact absurd h (by simp)
      | ok p =>
        rw [hrec] at h
        injection h with h
        injection h with h1 h2
        subst h1; subst h2
        obtain ⟨ihok, ihws⟩ := ih p.1 p.2 (by rw [hrec])
        constructor
        · intro c1 hc1
          rcases List.mem_cons.mp hc1 with rfl | hc1
          · exact ⟨(set_shots_to_1 c.config).1, rfl, set_shots_to_1_shots c.config⟩
          · exact ihok c1 hc1
        · rw [List.map_cons, ← ihws, set_shots_to_1_warn]

/-- C8 (confirmed): the statevector variant's validation fails for every job
containing a circuit with a measure or reset instruction; on success it has
forced the shot count to exactly 1 at the job level and in every circuit's
config (creating the config when absent), and it emitted a diagnostic for
exactly those items that already had a config whose shot count differed
from 1. -/
theorem claim_C8 (q : Qobj) :
    ((∃ c ∈ q.experiments, ∃ op ∈ c.instructions,
        op.name = "measure" ∨ op.name = "reset") →
      (sv_validate q).isOk = false)
    ∧ (∀ q1 ws, sv_validate q = .ok (q1, ws) →
        q1.config.shots = some 1
        ∧ (∀ c1 ∈ q1.experiments, ∃ cc, c1.config = some cc ∧ cc.shots = some 1)
        ∧ ws = overrideWarn (some q.config)
            :: q.experiments.map (fun c => overrideWarn c.config)) := by
  constructor
  · intro hex
    rw [sv_validate]
    have := sv_validate_circuits_error q.experiments hex
    cases hrec : sv_validate_circuits q.experiments with
    | error e => rfl
    | ok p => rw [hrec] at this; exact absurd this (by simp [Except.isOk, Except.toBool])
  · intro q1 ws h
    rw [sv_validate] at h
    cases hrec : sv_validate_circuits q.experiments with
    | error e => rw [hrec] at h; exact absurd h (by simp)
    | ok p =>
      rw [hrec] at h
      injection h with h
      injection h with h1 h2
      subst h1; subst h2
      obtain ⟨hok, hws⟩ := sv_validate_circuits_ok q.experiments p.1 p.2 (by rw [hrec])
      refine ⟨set_shots_to_1_shots (some q.config), hok, ?_⟩
      rw [← hws, set_shots_to_1_warn]

/-- C8, witness: a one-circuit job with a measure instruction is rejected;
a job whose config had `shots = 3` comes out of validation with
`shots = 1`. -/
theorem claim_C8_witness :
    (sv_validate
      { config := {},
        experiments := [{ header := { name := "b", number_of_qubits := 1,
                                      number_of_clbits := 1 },
                          instructions := [{ name := "measure" }] }] }).isOk = false
    ∧ ({ qobj_id := "", config := { shots := some 1, seed := none },
         experiments := [] } : Qobj).config.shots = some 1 := by
  constructor
  · exact (claim_C8 _).1
      ⟨_, List.mem_singleton.mpr rfl, { name := "measure" }, List.mem_singleton.mpr rfl,
        Or.inl rfl⟩
  · exact ((claim_C8 ({ config := { shots := some 3 }, experiments := [] } : Qobj)).2
      _ _ rfl).1

/-! Snapshot-store lemmas (claim C9). -/

/-- A key absent from the key list fails lookup. -/
theorem lookup_eq_none_of_not_mem {α : Type} (k : String) :
    ∀ l : List (String × α), k ∉ l.map (·.1) → l.lookup k = none := by
  intro l
  induction l with
  | nil => intro _; rfl
  | cons kv rest ih =>
    intro h
    simp only [List.map_cons, List.mem_cons] at h
    push_neg at h
    rw [List.lookup]
    have : (k == kv.1) = false := beq_eq_false_iff_ne.mpr h.1
    rw [this]
    exact ih h.2

/-- In a store with pairwise-distinct keys, popping a key removes it. -/
theorem eraseP_lookup_none {α : Type} (k : String) :
    ∀ l : List (String × α), (l.map (·.1)).Nodup →
    (l.eraseP (fun e => e.1 == k)).lookup k = none := by
  intro l
  induction l with
  | nil => intro _; rfl
  | cons kv rest ih =>
    intro hnd
    simp only [List.map_cons, List.nodup_cons] at hnd
    rw [List.eraseP_cons]
    by_cases hk : kv.1 = k
    · rw [show (kv.1 == k) = true from beq_iff_eq.mpr hk]
      simp only [cond_true]
      apply lookup_eq_none_of_not_mem
      rw [← hk]
      exact hnd.1
    · rw [show (kv.1 == k) = false from beq_eq_false_iff_ne.mpr hk]
      simp only [cond_false]
      rw [List.lookup]
      have : (k == kv.1) = false := beq_eq_false_iff_ne.mpr (fun h => hk h.symm)
      rw [this]
      exact ih hnd.2

/-- C9 (confirmed): the statevector variant (i) post-processes each result
whose snapshot store carries the sentinel key "32767" by popping that entry
and publishing its first captured vector as the `statevector` data field;
(ii) popping removes the sentinel from a store with distinct keys, leaving
the store to disappear when nothing else remains (the empty store models the
absent data key); (iii) after a successful validation, the job it actually
executes is the validated job with one sentinel snapshot instruction
appended to every circuit, and every base result is post-processed;
(iv) the label the interpreter records for the appended instruction is
exactly the key the post-processing pops; (v) the appended instruction sits
at the end of each instruction list. -/
theorem claim_C9 :
    (∀ (r : CircuitResult) (v : StateVec) (vs : List StateVec),
      r.snapshots.lookup (toString final_state_key) = some (v :: vs) →
      sv_postprocess r = .ok { r with
        snapshots := r.snapshots.eraseP (fun e => e.1 == toString final_state_key),
        statevector := some v })
    ∧ (∀ (l : List (String × List StateVec)), (l.map (·.1)).Nodup →
        (l.eraseP (fun e => e.1 == toString final_state_key)).lookup
          (toString final_state_key) = none)
    ∧ (∀ (kernels : Nat → Kernel) (randomSeed : Nat) (q q1 : Qobj) (ws : List Bool),
        sv_validate q = .ok (q1, ws) →
        sv_run_job kernels randomSeed q
          = (run_job_core statevector_backend_name (fun qq => (sv_validate qq).map (·.1))
              kernels randomSeed
              { q1 with experiments := q1.experiments.map extendCircuit }).bind
            (fun results => results.mapM sv_postprocess))
    ∧ snapLabel ((32767 : ℚ)) = toString final_state_key
    ∧ (∀ c : Circuit,
        (extendCircuit c).instructions = c.instructions ++ [final_snapshot_instr]) := by
  refine ⟨?_, fun l h => eraseP_lookup_none _ l h, ?_, by decide, fun c => rfl⟩
  · intro r v vs hlook
    have hne : r.snapshots ≠ [] := by
      intro h0
      rw [h0] at hlook
      exact absurd hlook (by simp)
    rw [sv_postprocess, if_neg hne, hlook]
  · intro kernels randomSeed q q1 ws h
    rw [sv_run_job, h]
    cases hrun : run_job_core statevector_backend_name (fun qq => (sv_validate qq).map (·.1))
        kernels randomSeed { q1 with experiments := q1.experiments.map extendCircuit } with
    | error e => simp only [hrun]; rfl
    | ok results => simp only [hrun]; rfl

/-- C9, witness: a result holding only the sentinel snapshot entry comes out
with that vector as its statevector and an empty (hence absent) snapshot
store; the variant's pipeline on an empty job runs to `[]`. -/
theorem claim_C9_witness :
    sv_postprocess { name := "x", seed := 0, shots := 1, counts := [],
                     snapshots := [("32767", [[(1 : ℚ)]])], classical_state := none }
      = .ok { name := "x", seed := 0, shots := 1, counts := [], snapshots := [],
              classical_state := none, statevector := some [(1 : ℚ)] }
    ∧ sv_run_job testKernels 0 { config := {}, experiments := [] } = .ok [] := by
  constructor
  · exact claim_C9.1
      { name := "x", seed := 0, shots := 1, counts := [],
        snapshots := [("32767", [[(1 : ℚ)]])], classical_state := none }
      [(1 : ℚ)] [] rfl
  · exact (claim_C9.2.2.1 testKernels 0
      ({ config := {}, experiments := [] } : Qobj) _ _ rfl).trans rfl
